import Mathlib

/-!
A verification development for the flowheater code generator's analysis
phase (`analyze.go`, `parse.go`): the parameter resolution engine that
turns an endpoint's parameter declarations into a deduplicated,
dependency-ordered list of extraction steps, plus the resolver catalog
builder, the output contract analyzer, the service aggregator and the
annotation scanner.

Go slices that are mutated in place (`InputParamSlice`) are modelled by
explicit state passing; fallible functions returning `(T, error)` become
`Except String T`.  Machine integers are `Nat`/`Int` (the only signed
quantity is `InputVar.PointerDepth`, an `int` in Go that can go negative
via `decl.PointerDepth() - rt.ReturnsPointer`).
-/

/-- A parameter declaration (`ParamDeclaration` in `parse.go`): the
pointer-stripped type name and package, the indirection depth, and the
built-in flag, as exposed by the accessors `Name`, `TypeName`,
`TypePackage`, `PointerDepth`, `IsBuiltIn`. -/
structure ParamDeclaration where
  name : String
  typeName : String
  typePackage : String
  pointerDepth : Nat
  isBuiltIn : Bool
deriving DecidableEq, Repr

/-- A resolver declaration, exposed to `analyze.go` through the accessors
`Name()`, `InputParams()` and `OutputParams()` (the only three it uses). -/
structure ResolverDeclaration where
  name : String
  inputParams : List ParamDeclaration
  outputParams : List ParamDeclaration
deriving DecidableEq, Repr

/-- `ResolvableType` from `analyze.go`: a catalog entry mapping a produced
type identity to its resolver. -/
structure ResolvableType where
  typeName : String
  typePackage : String
  resolver : ResolverDeclaration
  returnsError : Bool
  returnsPointer : Nat
deriving DecidableEq, Repr

/-- The step kinds of `analyze.go` (`KindStringParam`, `KindConvertParam`,
`KindResolveParam`, `KindPayloadParam`). -/
inductive ParamKind where
  | string
  | convert
  | resolve
  | payload
deriving DecidableEq, Repr

/-- `InputVar` from `analyze.go`: a variable reference with a pointer-depth
adjustment (a Go `int`, possibly negative). -/
structure InputVar where
  varName : String
  pointerDepth : Int
deriving DecidableEq, Repr

/-- `InputParam` from `analyze.go`: one extraction step. -/
structure InputParam where
  paramKind : ParamKind
  paramName : String
  varName : String
  typeName : String
  typePackage : String
  inputVars : List InputVar
  resolver : String
  returnsError : Bool
deriving DecidableEq, Repr

/-- `isErrorParam` from `analyze.go`. -/
def isErrorParam (param : ParamDeclaration) : Bool :=
  param.isBuiltIn && decide (param.typeName = "error")

/-- `(*InputParamSlice).appendParam`: assign the variable name
`param%d` from the current slice length, append, and return the name.
Go mutates the slice; here the new slice is returned alongside. -/
def appendParam (i : List InputParam) (param : InputParam) : List InputParam × String :=
  let varName := "param" ++ Nat.repr i.length
  (i ++ [{ param with varName := varName }], varName)

/-- `(*InputParamSlice).movePayloadLast`: remove the first
payload-kind step and append it at the end, leaving other steps in
their relative order; no payload step means no change. -/
def movePayloadLast : List InputParam → List InputParam
  | [] => []
  | p :: rest =>
    if p.paramKind = ParamKind.payload then rest ++ [p]
    else p :: movePayloadLast rest

/-- `(ResolvableSlice).FindResolver`: first catalog entry whose produced
type identity matches the declaration. -/
def findResolver (r : List ResolvableType) (param : ParamDeclaration) : Option ResolvableType :=
  r.find? (fun rt => decide (rt.typeName = param.typeName ∧ rt.typePackage = param.typePackage))

/-- `(*InputParamSlice).resolveNativeParam`: the fixed references for
`*net/http.Request`, `net/http.ResponseWriter` and `context.Context`;
none of these adds a step. -/
def resolveNativeParam (decl : ParamDeclaration) : Option InputVar :=
  if decl.typePackage = "net/http" ∧ decl.typeName = "Request" ∧ decl.pointerDepth = 1 then
    some { varName := "r", pointerDepth := 0 }
  else if decl.typePackage = "net/http" ∧ decl.typeName = "ResponseWriter" ∧ decl.pointerDepth = 0 then
    some { varName := "w", pointerDepth := 0 }
  else if decl.typePackage = "context" ∧ decl.typeName = "Context" ∧ decl.pointerDepth = 0 then
    some { varName := "r.Context()", pointerDepth := 0 }
  else
    none

/-- `(*InputParamSlice).resolveBuiltinParam`: ensure a raw `string` step
keyed by parameter name (reusing an existing one), and for non-string
built-ins additionally a `convert` step keyed by (name, type) whose sole
dependency is the raw string step. -/
def resolveBuiltinParam (i : List InputParam) (decl : ParamDeclaration) :
    Except String (List InputParam × InputVar) :=
  let found := i.find? (fun p =>
    decide (p.paramKind = ParamKind.string ∧ p.paramName = decl.name))
  let state :=
    match found with
    | some p => (i, p.varName)
    | none => appendParam i
        { paramKind := ParamKind.string, paramName := decl.name, varName := "",
          typeName := "string", typePackage := "", inputVars := [],
          resolver := "", returnsError := false }
  if decl.typeName = "string" then
    .ok (state.1, { varName := state.2, pointerDepth := (decl.pointerDepth : Int) })
  else
    match state.1.find? (fun p =>
      decide (p.paramKind = ParamKind.convert ∧ p.paramName = decl.name ∧
        p.typeName = decl.typeName)) with
    | some p => .ok (state.1, { varName := p.varName, pointerDepth := (decl.pointerDepth : Int) })
    | none =>
      let r := appendParam state.1
        { paramKind := ParamKind.convert, paramName := decl.name, varName := "",
          typeName := decl.typeName, typePackage := "",
          inputVars := [{ varName := state.2, pointerDepth := 0 }],
          resolver := "", returnsError := true }
      .ok (r.1, { varName := r.2, pointerDepth := (decl.pointerDepth : Int) })

/-- `(*InputParamSlice).resolvePayloadParam`: the first existing payload
step is reused on a matching type identity, conflicts otherwise; absent
a payload step a new fallible one is appended. -/
def resolvePayloadParam (i : List InputParam) (decl : ParamDeclaration) :
    Except String (List InputParam × InputVar) :=
  match i.find? (fun p => decide (p.paramKind = ParamKind.payload)) with
  | some p =>
    if p.typeName = decl.typeName ∧ p.typePackage = decl.typePackage then
      .ok (i, { varName := p.varName, pointerDepth := (decl.pointerDepth : Int) })
    else
      .error ("cannot resolve param " ++ decl.name ++ ", because " ++ p.paramName ++
        " is already claiming the payload")
  | none =>
    let r := appendParam i
      { paramKind := ParamKind.payload, paramName := decl.name, varName := "",
        typeName := decl.typeName, typePackage := decl.typePackage,
        inputVars := [], resolver := "", returnsError := true }
    .ok (r.1, { varName := r.2, pointerDepth := (decl.pointerDepth : Int) })

/-- `(*InputParamSlice).resolveParams`, abstracted over the single-param
resolver `f` so that the fueled recursion below stays structural: resolve
the declarations in order, threading the step list. -/
def resolveList (f : List InputParam → ParamDeclaration → Except String (List InputParam × InputVar)) :
    List InputParam → List ParamDeclaration → Except String (List InputParam × List InputVar)
  | i, [] => .ok (i, [])
  | i, d :: rest =>
    match f i d with
    | .error e => .error e
    | .ok (i1, v) =>
      match resolveList f i1 rest with
      | .error e => .error e
      | .ok (i2, vs) => .ok (i2, v :: vs)

/-- `(*InputParamSlice).resolveResolvableParam`, abstracted over the
recursive entry point `f` used for the resolver's own input parameters:
reuse an existing `resolve` step of the same produced type identity, else
resolve the resolver's inputs against the same shared list and append a
new `resolve` step.  The returned reference adjusts pointer depth by
(requested depth − produced depth). -/
def resolveResolvableParamF
    (f : List InputParam → ParamDeclaration → Except String (List InputParam × InputVar))
    (i : List InputParam) (decl : ParamDeclaration) (rt : ResolvableType) :
    Except String (List InputParam × InputVar) :=
  match i.find? (fun p =>
    decide (p.paramKind = ParamKind.resolve ∧ p.typeName = rt.typeName ∧
      p.typePackage = rt.typePackage)) with
  | some p =>
    .ok (i, { varName := p.varName,
              pointerDepth := (decl.pointerDepth : Int) - (rt.returnsPointer : Int) })
  | none =>
    match resolveList f i rt.resolver.inputParams with
    | .error e => .error e
    | .ok (i1, inputVars) =>
      let r := appendParam i1
        { paramKind := ParamKind.resolve, paramName := decl.name, varName := "",
          typeName := rt.typeName, typePackage := rt.typePackage,
          inputVars := inputVars, resolver := rt.resolver.name,
          returnsError := rt.returnsError }
      .ok (r.1, { varName := r.2,
                  pointerDepth := (decl.pointerDepth : Int) - (rt.returnsPointer : Int) })

/-- `(*InputParamSlice).resolveParam`: reject pointers of pointers, then
native short-circuit, resolver lookup, built-in handling, and payload
handling, in that order.  The Go recursion through resolver expansion is
unbounded; `fuel` bounds it here, and exhaustion yields an error that a
run of the Go program never reports for a terminating input. -/
def resolveParam : Nat → List InputParam → ParamDeclaration → List ResolvableType →
    Except String (List InputParam × InputVar)
  | 0, _, _, _ => .error "resolver recursion limit exceeded"
  | fuel + 1, i, decl, resolvables =>
    if decl.pointerDepth > 1 then
      .error (decl.name ++ ": pointers of pointers are not supported")
    else
      match resolveNativeParam decl with
      | some v => .ok (i, v)
      | none =>
        match findResolver resolvables decl with
        | some rt =>
          resolveResolvableParamF (fun l d => resolveParam fuel l d resolvables) i decl rt
        | none =>
          if decl.isBuiltIn then
            resolveBuiltinParam i decl
          else
            resolvePayloadParam i decl

/-- `(*InputParamSlice).resolveParams` at the top level: one variable
reference per declaration, in order, with the shared step list threaded
through. -/
def resolveParams (fuel : Nat) (i : List InputParam) (decls : List ParamDeclaration)
    (resolvables : List ResolvableType) : Except String (List InputParam × List InputVar) :=
  resolveList (fun l d => resolveParam fuel l d resolvables) i decls

/-! ## Annotation scanning (`parse.go`) -/

/-- Go `strings.Split` on a single separator character, over the
character list of a string: splitting the empty string yields one empty
field. -/
def splitOnChar (c : Char) : List Char → List (List Char)
  | [] => [[]]
  | x :: xs =>
    match splitOnChar c xs with
    | [] => [[]]
    | h :: t => if x = c then [] :: h :: t else (x :: h) :: t

/-- Go `strings.SplitN(line, sep, 2)` at a single character: the part
before the first occurrence and the part after it, when one exists. -/
def splitFirst (c : Char) : List Char → Option (List Char × List Char)
  | [] => none
  | x :: xs =>
    if x = c then some ([], xs)
    else
      match splitFirst c xs with
      | none => none
      | some r => some (x :: r.1, r.2)

/-- Go `unicode.IsSpace`, modelled on the ASCII/Latin-1 range (the only
characters the annotation claims exercise). -/
def goIsSpace (c : Char) : Bool :=
  decide (c = ' ' ∨ c = '\t' ∨ c = '\n' ∨ c = (Char.ofNat 11) ∨ c = (Char.ofNat 12) ∨
    c = '\r' ∨ c = (Char.ofNat 133) ∨ c = (Char.ofNat 160))

/-- Go `strings.TrimSpace`. -/
def goTrim (s : String) : String :=
  ⟨((s.data.dropWhile goIsSpace).reverse.dropWhile goIsSpace).reverse⟩

/-- Go `strings.ToLower`, modelled on the ASCII range. -/
def goToLower (s : String) : String :=
  ⟨s.data.map (fun c => if 'A' ≤ c ∧ c ≤ 'Z' then Char.ofNat (c.toNat + 32) else c)⟩

/-- Go `strings.ToUpper`, modelled on the ASCII range. -/
def goToUpper (s : String) : String :=
  ⟨s.data.map (fun c => if 'a' ≤ c ∧ c ≤ 'z' then Char.ofNat (c.toNat - 32) else c)⟩

/-- A Go `map[string]string` as an association list: assignment
overwrites the entry for an existing key. -/
def mapInsert (m : List (String × String)) (k v : String) : List (String × String) :=
  match m with
  | [] => [(k, v)]
  | (k1, v1) :: rest => if k1 = k then (k, v) :: rest else (k1, v1) :: mapInsert rest k v

/-- Go map lookup. -/
def mapGet (m : List (String × String)) (k : String) : Option String :=
  (m.find? (fun p => decide (p.1 = k))).map (fun p => p.2)

/-- The loop body of `parseAnnotations`: the lines in scanning order
(bottom-up, so the reversed physical order); the scan stops at the first
line without a `:` and otherwise assigns
`map[trim(lower(before))] = trim(after)`. -/
def scanLines : List String → List (String × String) → List (String × String)
  | [], acc => acc
  | line :: rest, acc =>
    if line.data.contains ':' then
      match splitFirst ':' line.data with
      | some parts =>
        scanLines rest (mapInsert acc (goTrim (goToLower ⟨parts.1⟩)) (goTrim ⟨parts.2⟩))
      | none => acc
    else
      acc

/-- `parseAnnotations` from `parse.go`: trim the documentation comment,
split it into lines, and scan them from the last line upward. -/
def parseAnnotations (comment : String) : List (String × String) :=
  scanLines (((splitOnChar '\n' (goTrim comment).data).map (fun l => (⟨l⟩ : String))).reverse) []

/-- `(Annotations).Get`: keys are queried lowercased; a missing key
yields the empty string. -/
def annotationsGet (m : List (String × String)) (key : String) : String :=
  (mapGet m (goToLower key)).getD ""

/-- `(Annotations).Exists`. -/
def annotationsExists (m : List (String × String)) (key : String) : Bool :=
  (mapGet m (goToLower key)).isSome

/-! ## Resolver catalog, output contracts and the aggregator (`analyze.go`) -/

/-- `analyzeResolver`: 1 output must be a non-error, 2 outputs must end
in an error; the produced type is the first output, and error
propagation is enabled exactly for 2 outputs. -/
def analyzeResolver (decl : ResolverDeclaration) : Except String ResolvableType :=
  match decl.outputParams with
  | [v0] =>
    if isErrorParam v0 then
      .error "resolver must return a non-error value"
    else
      .ok { typeName := v0.typeName, typePackage := v0.typePackage, resolver := decl,
            returnsError := false, returnsPointer := v0.pointerDepth }
  | [v0, v1] =>
    if !isErrorParam v1 then
      .error "second return value must be an error"
    else
      .ok { typeName := v0.typeName, typePackage := v0.typePackage, resolver := decl,
            returnsError := true, returnsPointer := v0.pointerDepth }
  | _ => .error "a resolver can only return 1 or 2 values: a value or a value and an error"

/-- `analyzeResolvers`: catalog entries in declaration order; the first
invalid resolver aborts, wrapped with its name. -/
def analyzeResolvers : List ResolverDeclaration → Except String (List ResolvableType)
  | [] => .ok []
  | decl :: rest =>
    match analyzeResolver decl with
    | .error e => .error ("analyzing resolver " ++ decl.name ++ ": " ++ e)
    | .ok rt =>
      match analyzeResolvers rest with
      | .error e => .error e
      | .ok r => .ok (rt :: r)

/-- `analyzeEndpointOutput`: classify an output parameter list into
(returns value, returns error). -/
def analyzeEndpointOutput (params : List ParamDeclaration) : Except String (Bool × Bool) :=
  match params with
  | [] => .ok (false, false)
  | [p0] => .ok (!isErrorParam p0, isErrorParam p0)
  | [_, p1] =>
    if !isErrorParam p1 then
      .error "the second return value must be of type error"
    else
      .ok (true, true)
  | _ => .error "an endpoint can only return 1 or 2 values: either a value, an error or both"

/-- `EndpointDeclaration` as consumed by `analyze.go`: name, annotation
set, and the ordered input and output parameter declarations. -/
structure EndpointDeclaration where
  name : String
  annotations : List (String × String)
  inputParams : List ParamDeclaration
  outputParams : List ParamDeclaration
deriving DecidableEq, Repr

/-- `(*EndpointDeclaration).Path()`: the `path` annotation. -/
def EndpointDeclaration.path (e : EndpointDeclaration) : String :=
  (mapGet e.annotations "path").getD ""

/-- `ServiceDeclaration` as consumed by `analyze.go`. -/
structure ServiceDeclaration where
  name : String
  annotations : List (String × String)
  endpoints : List EndpointDeclaration
deriving DecidableEq, Repr

/-- `(*ServiceDeclaration).Path()`: the `path` annotation. -/
def ServiceDeclaration.path (s : ServiceDeclaration) : String :=
  (mapGet s.annotations "path").getD ""

/-- `Endpoint` from `analyze.go` (the back-reference to the owning
`Service` is omitted: it is circular and no claim mentions it). -/
structure Endpoint where
  funcName : String
  path : String
  httpMethod : String
  inputVars : List InputVar
  inputParams : List InputParam
  returnsValue : Bool
  returnsError : Bool
deriving DecidableEq, Repr

/-- `Service` from `analyze.go`. -/
structure Service where
  typeName : String
  path : String
  endpoints : List Endpoint
deriving DecidableEq, Repr

/-- `Resolver` from `analyze.go`: a manifest entry. -/
structure Resolver where
  typeName : String
deriving DecidableEq, Repr

/-- `ServiceCollection` from `analyze.go`. -/
structure ServiceCollection where
  packageName : String
  services : List Service
  resolvers : List Resolver
deriving DecidableEq, Repr

/-- `SourcePackage` as consumed by `AnalyzePackage`: package name,
service declarations and resolver declarations. -/
structure SourcePackage where
  name : String
  services : List ServiceDeclaration
  resolvers : List ResolverDeclaration
deriving DecidableEq, Repr

/-- `analyzeEndpoint`: HTTP method from the `method` annotation
(upper-cased, default `GET`), the resolved step list with the payload
step moved last, and the output contract. -/
def analyzeEndpoint (fuel : Nat) (decl : EndpointDeclaration)
    (resolvables : List ResolvableType) : Except String Endpoint :=
  let httpMethod :=
    if annotationsExists decl.annotations "method" then
      goToUpper (annotationsGet decl.annotations "method")
    else
      "GET"
  match resolveParams fuel [] decl.inputParams resolvables with
  | .error e => .error e
  | .ok (inputParams, inputVars) =>
    match analyzeEndpointOutput decl.outputParams with
    | .error e => .error e
    | .ok contract =>
      .ok { funcName := decl.name, path := decl.path, httpMethod := httpMethod,
            inputVars := inputVars, inputParams := movePayloadLast inputParams,
            returnsValue := contract.1, returnsError := contract.2 }

/-- The endpoint loop of `analyzeService`: each failing endpoint aborts,
wrapped with its name. -/
def analyzeEndpoints (fuel : Nat) (resolvables : List ResolvableType) :
    List EndpointDeclaration → Except String (List Endpoint)
  | [] => .ok []
  | decl :: rest =>
    match analyzeEndpoint fuel decl resolvables with
    | .error e => .error ("analyzing endpoint " ++ decl.name ++ ": " ++ e)
    | .ok endpoint =>
      match analyzeEndpoints fuel resolvables rest with
      | .error e => .error e
      | .ok es => .ok (endpoint :: es)

/-- `analyzeService`. -/
def analyzeService (fuel : Nat) (decl : ServiceDeclaration)
    (resolvables : List ResolvableType) : Except String Service :=
  match analyzeEndpoints fuel resolvables decl.endpoints with
  | .error e => .error e
  | .ok endpoints => .ok { typeName := decl.name, path := decl.path, endpoints := endpoints }

/-- The service loop of `AnalyzePackage`: each failing service aborts,
wrapped with its name. -/
def analyzeServices (fuel : Nat) (resolvables : List ResolvableType) :
    List ServiceDeclaration → Except String (List Service)
  | [] => .ok []
  | decl :: rest =>
    match analyzeService fuel decl resolvables with
    | .error e => .error ("analyzing service " ++ decl.name ++ ": " ++ e)
    | .ok service =>
      match analyzeServices fuel resolvables rest with
      | .error e => .error e
      | .ok ss => .ok (service :: ss)

/-- The per-parameter body of `findUsedResolvers`: a set of already-seen
resolver names (the Go `map[string]bool`) plus the manifest slice. -/
def collectResolverParam (acc : List String × List Resolver) (p : InputParam) :
    List String × List Resolver :=
  if p.paramKind = ParamKind.resolve then
    if p.resolver ∈ acc.1 then acc
    else (p.resolver :: acc.1, acc.2 ++ [Resolver.mk p.resolver])
  else
    acc

/-- `findUsedResolvers`: walk every service, endpoint and step in order
and record each resolve step's resolver name on first encounter. -/
def findUsedResolvers (services : List Service) : List Resolver :=
  (services.foldl (fun acc service =>
    service.endpoints.foldl (fun acc2 e =>
      e.inputParams.foldl collectResolverParam acc2) acc) ([], [])).2

/-- `AnalyzePackage`: catalog first, then the services, then the
manifest of used resolvers. -/
def AnalyzePackage (fuel : Nat) (source : SourcePackage) : Except String ServiceCollection :=
  match analyzeResolvers source.resolvers with
  | .error e => .error e
  | .ok resolvableTypes =>
    match analyzeServices fuel resolvableTypes source.services with
    | .error e => .error e
    | .ok services =>
      .ok { packageName := source.name, services := services,
            resolvers := findUsedResolvers services }

/-! ## Properties stated over the embedding -/

/-- The fixed native variable references returned without creating a
step (`resolveNativeParam`). -/
def Natives : List String := ["r", "w", "r.Context()"]

/-- Topological order as claimed: any dependency of the step at index
`k` that names the variable of the step at index `j` satisfies
`j < k`. -/
def TopoOk (l : List InputParam) : Prop :=
  ∀ (k : Fin l.length), ∀ v ∈ (l.get k).inputVars,
    ∀ (j : Fin l.length), (l.get j).varName = v.varName → j.val < k.val

instance (l : List InputParam) : Decidable (TopoOk l) := by
  unfold TopoOk; infer_instance

/-- The resolve-kind steps of a collection's services, walked in
service, endpoint and step order. -/
def resolveSteps (services : List Service) : List InputParam :=
  services.flatMap (fun s => s.endpoints.flatMap (fun e =>
    e.inputParams.filter (fun p => decide (p.paramKind = ParamKind.resolve))))

/-- The resolver names recorded on those steps, in encounter order. -/
def resolveNames (services : List Service) : List String :=
  (resolveSteps services).map (fun p => p.resolver)

/-- First-encounter deduplication, seeded with already-seen keys. -/
def dedupFirstOccur {α : Type} [DecidableEq α] (seen : List α) : List α → List α
  | [] => []
  | x :: xs =>
    if x ∈ seen then dedupFirstOccur seen xs
    else x :: dedupFirstOccur (x :: seen) xs

/-- Modelled from the spec for the refinement half of claim C6: the
deduplicated type identities (type name, type package) of resolve-kind
steps actually referenced, in first-encounter order. -/
def usedResolverIdentitiesSpec (services : List Service) : List (String × String) :=
  dedupFirstOccur [] ((resolveSteps services).map (fun p => (p.typeName, p.typePackage)))

/-- Claim C6's reading of the manifest: its entries are the deduplicated
type identities of the referenced resolve steps in first-encounter order
(a manifest entry can only record the type name). -/
def manifestMatchesSpec (col : ServiceCollection) : Prop :=
  col.resolvers = (usedResolverIdentitiesSpec col.services).map (fun q => Resolver.mk q.1)

instance (col : ServiceCollection) : Decidable (manifestMatchesSpec col) := by
  unfold manifestMatchesSpec; infer_instance

/-! ## Internal invariants of the resolution engine

The engine only ever appends steps, and `appendParam` names the step
appended at index `k` as `param%k`; the invariants below are maintained
by every operation on the shared step list. -/

/-- The step at index `k` carries the variable name `param%k`. -/
def varNamesIndexed (l : List InputParam) : Prop :=
  ∀ (k : Fin l.length), (l.get k).varName = "param" ++ Nat.repr k.val

/-- Every dependency of the step at index `k` is either a native
reference or the name of a step at a strictly smaller index. -/
def DepsOk (l : List InputParam) : Prop :=
  ∀ (k : Fin l.length), ∀ v ∈ (l.get k).inputVars,
    v.varName ∈ Natives ∨ ∃ m, m < k.val ∧ v.varName = "param" ++ Nat.repr m

/-- Payload steps carry no dependencies. -/
def PayloadsPlain (l : List InputParam) : Prop :=
  ∀ p ∈ l, p.paramKind = ParamKind.payload → p.inputVars = []

/-- The number of payload-kind steps. -/
def payloadCount (l : List InputParam) : Nat :=
  l.countP (fun p => decide (p.paramKind = ParamKind.payload))

/-- The reachable-state invariant of the shared step list. -/
def StateInv (l : List InputParam) : Prop :=
  varNamesIndexed l ∧ DepsOk l ∧ PayloadsPlain l ∧ payloadCount l ≤ 1

/-- A variable reference valid against a step list: a native reference
or the name of one of the list's indices. -/
def VarOk (l : List InputParam) (v : InputVar) : Prop :=
  v.varName ∈ Natives ∨ ∃ m, m < l.length ∧ v.varName = "param" ++ Nat.repr m

/-- The step list only grows. -/
def listGrows (l l2 : List InputParam) : Prop :=
  ∃ t, l2 = l ++ t

/-! ## Concrete fixtures used by counterexamples and witnesses -/

/-- A resolver producing `app.T` from a parameter that itself resolves
as a payload (`app.Body` is neither native, built-in nor resolvable). -/
def resolverT : ResolverDeclaration :=
  { name := "ResolveT",
    inputParams := [{ name := "body", typeName := "Body", typePackage := "app",
                      pointerDepth := 0, isBuiltIn := false }],
    outputParams := [{ name := "", typeName := "T", typePackage := "app",
                       pointerDepth := 0, isBuiltIn := false }] }

/-- The catalog entry `analyzeResolver` produces for `resolverT`. -/
def resolvableT : ResolvableType :=
  { typeName := "T", typePackage := "app", resolver := resolverT,
    returnsError := false, returnsPointer := 0 }

/-- An endpoint parameter list requesting `app.T`. -/
def declsT : List ParamDeclaration :=
  [{ name := "t", typeName := "T", typePackage := "app", pointerDepth := 0, isBuiltIn := false }]

/-- The step list the engine produces for `declsT` against `resolvableT`:
the payload step feeding the resolver, then the resolve step. -/
def stepsT : List InputParam :=
  [{ paramKind := ParamKind.payload, paramName := "body", varName := "param0",
     typeName := "Body", typePackage := "app", inputVars := [], resolver := "",
     returnsError := true },
   { paramKind := ParamKind.resolve, paramName := "t", varName := "param1",
     typeName := "T", typePackage := "app",
     inputVars := [{ varName := "param0", pointerDepth := 0 }],
     resolver := "ResolveT", returnsError := false }]

/-- A plain built-in string parameter named `name`. -/
def declName : ParamDeclaration :=
  { name := "name", typeName := "string", typePackage := "", pointerDepth := 0,
    isBuiltIn := true }

/-- The raw extraction step for `declName`. -/
def stepName : InputParam :=
  { paramKind := ParamKind.string, paramName := "name", varName := "param0",
    typeName := "string", typePackage := "", inputVars := [], resolver := "",
    returnsError := false }

/-- A payload step claimed by parameter `a` of type `app.P`. -/
def stepPayloadP : InputParam :=
  { paramKind := ParamKind.payload, paramName := "a", varName := "param0",
    typeName := "P", typePackage := "app", inputVars := [], resolver := "",
    returnsError := true }

/-- A parameter `b` of the same payload type `app.P`. -/
def declSameP : ParamDeclaration :=
  { name := "b", typeName := "P", typePackage := "app", pointerDepth := 0, isBuiltIn := false }

/-- A parameter `b` of a different payload type `app.Q`. -/
def declOtherQ : ParamDeclaration :=
  { name := "b", typeName := "Q", typePackage := "app", pointerDepth := 0, isBuiltIn := false }

/-- A resolver named differently from the type it produces. -/
def resolverUser : ResolverDeclaration :=
  { name := "ProvideUser", inputParams := [],
    outputParams := [{ name := "", typeName := "User", typePackage := "app",
                       pointerDepth := 0, isBuiltIn := false }] }

/-- Its catalog entry. -/
def resolvableUser : ResolvableType :=
  { typeName := "User", typePackage := "app", resolver := resolverUser,
    returnsError := false, returnsPointer := 0 }

/-- A source package with one service and one endpoint taking `app.User`. -/
def sourceUser : SourcePackage :=
  { name := "rest",
    services :=
      [{ name := "S", annotations := [("path", "/s")],
         endpoints :=
           [{ name := "Get", annotations := [("path", "/g")],
              inputParams :=
                [{ name := "u", typeName := "User", typePackage := "app",
                   pointerDepth := 0, isBuiltIn := false }],
              outputParams := [] }] }],
    resolvers := [resolverUser] }

/-- The collection `AnalyzePackage` produces for `sourceUser`. -/
def collectionUser : ServiceCollection :=
  { packageName := "rest",
    services :=
      [{ typeName := "S", path := "/s",
         endpoints :=
           [{ funcName := "Get", path := "/g", httpMethod := "GET",
              inputVars := [{ varName := "param0", pointerDepth := 0 }],
              inputParams :=
                [{ paramKind := ParamKind.resolve, paramName := "u",
                   varName := "param0", typeName := "User", typePackage := "app",
                   inputVars := [], resolver := "ProvideUser", returnsError := false }],
              returnsValue := false, returnsError := false }] }],
    resolvers := [{ typeName := "ProvideUser" }] }

/-- A built-in `int` parameter named `id`. -/
def declId : ParamDeclaration :=
  { name := "id", typeName := "int", typePackage := "", pointerDepth := 0, isBuiltIn := true }

/-- The raw string step for `id`. -/
def stepIdStr : InputParam :=
  { paramKind := ParamKind.string, paramName := "id", varName := "param0",
    typeName := "string", typePackage := "", inputVars := [], resolver := "",
    returnsError := false }

/-- The conversion step for `id` as `int`. -/
def stepIdInt : InputParam :=
  { paramKind := ParamKind.convert, paramName := "id", varName := "param1",
    typeName := "int", typePackage := "",
    inputVars := [{ varName := "param0", pointerDepth := 0 }], resolver := "",
    returnsError := true }

/-- A parameter `u` of the resolvable type `app.User`. -/
def declUser : ParamDeclaration :=
  { name := "u", typeName := "User", typePackage := "app", pointerDepth := 0, isBuiltIn := false }

/-- A second parameter `u2` of the same resolvable type. -/
def declUser2 : ParamDeclaration :=
  { name := "u2", typeName := "User", typePackage := "app", pointerDepth := 0, isBuiltIn := false }

/-- The resolve step produced for `declUser` against `resolvableUser`. -/
def stepUser : InputParam :=
  { paramKind := ParamKind.resolve, paramName := "u", varName := "param0",
    typeName := "User", typePackage := "app", inputVars := [],
    resolver := "ProvideUser", returnsError := false }

/-- The body of `findUsedResolvers` as a named fold step: record an
unseen resolver name, skip a seen one. -/
def addName (acc : List String × List Resolver) (n : String) : List String × List Resolver :=
  if n ∈ acc.1 then acc else (n :: acc.1, acc.2 ++ [Resolver.mk n])

/-- An output position of the built-in `error` type. -/
def declErrOut : ParamDeclaration :=
  { name := "", typeName := "error", typePackage := "", pointerDepth := 0, isBuiltIn := true }

/-- A non-error output position. -/
def declValOut : ParamDeclaration :=
  { name := "", typeName := "User", typePackage := "app", pointerDepth := 0, isBuiltIn := false }

/-- A resolver declaration with no outputs: an invalid shape. -/
def resolverBad : ResolverDeclaration :=
  { name := "Bad", inputParams := [], outputParams := [] }

/-! ## Decimal representation: `Nat.repr` is injective

`appendParam` derives variable names from `Nat.repr`; distinctness of
step variable names reduces to injectivity of the decimal printer. -/

/-- Decimal digits back to the number they print. -/
def digitsVal (l : List Char) : Nat :=
  l.foldl (fun a c => a * 10 + (c.toNat - 48)) 0

theorem toDigitsCore_append (b : Nat) :
    ∀ (fuel n : Nat) (ds : List Char),
      Nat.toDigitsCore b fuel n ds = Nat.toDigitsCore b fuel n [] ++ ds := by
  intro fuel
  induction fuel with
  | zero => intro n ds; simp [Nat.toDigitsCore]
  | succ fuel ih =>
    intro n ds
    simp only [Nat.toDigitsCore]
    by_cases h : n / b = 0
    · simp [h]
    · simp only [h, if_false]
      rw [ih (n / b) (Nat.digitChar (n % b) :: ds), ih (n / b) [Nat.digitChar (n % b)],
        List.append_assoc]
      simp

theorem toDigitsCore_fuel :
    ∀ (n f g : Nat), n < f → n < g →
      Nat.toDigitsCore 10 f n [] = Nat.toDigitsCore 10 g n [] := by
  intro n
  induction n using Nat.strong_induction_on with
  | _ n ih =>
    intro f g hf hg
    match f, g with
    | f + 1, g + 1 =>
      simp only [Nat.toDigitsCore]
      by_cases h : n / 10 = 0
      · simp [h]
      · simp only [h, if_false]
        rw [toDigitsCore_append 10 f, toDigitsCore_append 10 g]
        have hdiv : n / 10 < n := by omega
        rw [ih (n / 10) hdiv f g (by omega) (by omega)]

theorem digitsVal_concat (l : List Char) (c : Char) :
    digitsVal (l ++ [c]) = digitsVal l * 10 + (c.toNat - 48) := by
  simp [digitsVal, List.foldl_append]

theorem digitChar_val (m : Nat) (h : m < 10) : (Nat.digitChar m).toNat - 48 = m := by
  interval_cases m <;> decide

theorem digitsVal_toDigits (n : Nat) : digitsVal (Nat.toDigits 10 n) = n := by
  induction n using Nat.strong_induction_on with
  | _ n ih =>
    unfold Nat.toDigits
    simp only [Nat.toDigitsCore]
    by_cases h : n / 10 = 0
    · have hn : n < 10 := by omega
      have hmod : n % 10 = n := Nat.mod_eq_of_lt hn
      simp [h, hmod, digitsVal, digitChar_val n hn]
    · simp only [h, if_false]
      rw [toDigitsCore_append 10 n (n / 10)]
      have hdiv : n / 10 < n := Nat.div_lt_self (by omega) (by omega)
      have hfuel : Nat.toDigitsCore 10 n (n / 10) [] = Nat.toDigits 10 (n / 10) := by
        unfold Nat.toDigits
        exact toDigitsCore_fuel (n / 10) n (n / 10 + 1) (by omega) (by omega)
      rw [hfuel, digitsVal_concat, ih (n / 10) hdiv, digitChar_val (n % 10) (by omega)]
      omega

theorem reprInj {m n : Nat} (h : Nat.repr m = Nat.repr n) : m = n := by
  have hd : Nat.toDigits 10 m = Nat.toDigits 10 n := congrArg String.data h
  calc m = digitsVal (Nat.toDigits 10 m) := (digitsVal_toDigits m).symm
    _ = digitsVal (Nat.toDigits 10 n) := by rw [hd]
    _ = n := digitsVal_toDigits n

theorem param_varName_inj {a b : Nat}
    (h : "param" ++ Nat.repr a = "param" ++ Nat.repr b) : a = b := by
  have hd := congrArg String.data h
  rw [String.data_append, String.data_append] at hd
  have := List.append_cancel_left hd
  exact reprInj (by cases ha : Nat.repr a; cases hb : Nat.repr b; simp_all)

theorem param_append_ne_native (s t : String) (ht : t ∈ Natives) :
    "param" ++ s ≠ t := by
  intro h
  have hd := congrArg String.data h
  rw [String.data_append] at hd
  have hh := congrArg List.head? hd
  rw [show "param".data = 'p' :: "aram".data from rfl] at hh
  simp only [List.cons_append, List.head?_cons] at hh
  simp only [Natives, List.mem_cons, List.not_mem_nil, or_false] at ht
  rcases ht with rfl | rfl | rfl <;> exact absurd hh (by decide)

/-! ## Invariant preservation -/

theorem listGrows_refl (l : List InputParam) : listGrows l l :=
  ⟨[], by simp⟩

theorem listGrows_trans {a b c : List InputParam} (h1 : listGrows a b) (h2 : listGrows b c) :
    listGrows a c := by
  obtain ⟨t1, rfl⟩ := h1
  obtain ⟨t2, rfl⟩ := h2
  exact ⟨t1 ++ t2, by simp⟩

theorem listGrows_length {a b : List InputParam} (h : listGrows a b) : a.length ≤ b.length := by
  obtain ⟨t, rfl⟩ := h
  simp

theorem VarOk_mono {a b : List InputParam} {v : InputVar} (h : listGrows a b) (hv : VarOk a v) :
    VarOk b v := by
  rcases hv with h1 | ⟨m, hm, he⟩
  · exact Or.inl h1
  · exact Or.inr ⟨m, lt_of_lt_of_le hm (listGrows_length h), he⟩

theorem stateInv_nil : StateInv [] := by
  refine ⟨?_, ?_, ?_, ?_⟩
  · intro k; exact absurd k.isLt (by simp)
  · intro k; exact absurd k.isLt (by simp)
  · intro p hp; simp at hp
  · simp [payloadCount]

theorem get_append_left_ip (l1 l2 : List InputParam) (k : Nat) (h : k < l1.length)
    (h2 : k < (l1 ++ l2).length) :
    (l1 ++ l2).get ⟨k, h2⟩ = l1.get ⟨k, h⟩ := by
  simp [List.get_eq_getElem, List.getElem_append_left h]

theorem get_append_last_ip (l : List InputParam) (x : InputParam)
    (h : l.length < (l ++ [x]).length) :
    (l ++ [x]).get ⟨l.length, h⟩ = x := by
  simp [List.get_eq_getElem, List.getElem_append_right (Nat.le_refl l.length)]

/-- A member of the step list is one of its indexed entries; under
`varNamesIndexed` its variable name is `param%k` for its index. -/
theorem varOk_of_mem {l : List InputParam} {p : InputParam} (hinv : varNamesIndexed l)
    (hp : p ∈ l) : ∃ m, m < l.length ∧ p.varName = "param" ++ Nat.repr m := by
  obtain ⟨k, hk⟩ := List.mem_iff_get.mp hp
  exact ⟨k.val, k.isLt, by rw [← hk, hinv k]⟩

theorem payloadCount_append (l1 l2 : List InputParam) :
    payloadCount (l1 ++ l2) = payloadCount l1 + payloadCount l2 :=
  List.countP_append _ l1 l2

theorem stateInv_append (l : List InputParam) (x : InputParam)
    (hinv : StateInv l)
    (hname : x.varName = "param" ++ Nat.repr l.length)
    (hdeps : ∀ v ∈ x.inputVars, VarOk l v)
    (hpay : x.paramKind = ParamKind.payload → payloadCount l = 0 ∧ x.inputVars = []) :
    StateInv (l ++ [x]) := by
  obtain ⟨hidx, hdep, hplain, hcount⟩ := hinv
  have hlen : (l ++ [x]).length = l.length + 1 := by simp
  refine ⟨?_, ?_, ?_, ?_⟩
  · intro k
    simp only [List.get_eq_getElem]
    rcases Nat.lt_or_ge k.val l.length with hk | hk
    · rw [List.getElem_append_left hk]
      have := hidx ⟨k.val, hk⟩
      simpa [List.get_eq_getElem] using this
    · have hk2 : k.val = l.length := by have := k.isLt; omega
      rw [List.getElem_append_right hk]
      simp [hk2, hname]
  · intro k v hv
    simp only [List.get_eq_getElem] at hv
    rcases Nat.lt_or_ge k.val l.length with hk | hk
    · rw [List.getElem_append_left hk] at hv
      have := hdep ⟨k.val, hk⟩ v (by simpa [List.get_eq_getElem] using hv)
      exact this
    · have hk2 : k.val = l.length := by have := k.isLt; omega
      rw [List.getElem_append_right hk] at hv
      simp only [hk2, Nat.sub_self, List.getElem_cons_zero] at hv
      rcases hdeps v hv with h1 | ⟨m, hm, he⟩
      · exact Or.inl h1
      · exact Or.inr ⟨m, by omega, he⟩
  · intro p hp hkind
    rcases List.mem_append.mp hp with hp1 | hp2
    · exact hplain p hp1 hkind
    · have hpe : p = x := by simpa using hp2
      rw [hpe] at hkind ⊢
      exact (hpay hkind).2
  · rw [payloadCount_append]
    by_cases hk : x.paramKind = ParamKind.payload
    · have := (hpay hk).1
      simp only [payloadCount, List.countP_cons, List.countP_nil] at *
      simp [hk, this]
    · simp only [payloadCount, List.countP_cons, List.countP_nil]
      simp only [payloadCount] at hcount
      simpa [hk] using hcount

theorem appendParam_spec (l : List InputParam) (param : InputParam)
    (hinv : StateInv l)
    (hdeps : ∀ v ∈ param.inputVars, VarOk l v)
    (hpay : param.paramKind = ParamKind.payload → payloadCount l = 0 ∧ param.inputVars = []) :
    StateInv (appendParam l param).1 ∧
    (appendParam l param).2 = "param" ++ Nat.repr l.length ∧
    (appendParam l param).1 = l ++ [{ param with varName := "param" ++ Nat.repr l.length }] := by
  refine ⟨?_, rfl, rfl⟩
  exact stateInv_append l _ hinv rfl hdeps (fun h => hpay h)

theorem payloadCount_eq_zero_of_find?_none {l : List InputParam}
    (h : l.find? (fun p => decide (p.paramKind = ParamKind.payload)) = none) :
    payloadCount l = 0 := by
  rw [List.find?_eq_none] at h
  rw [payloadCount, List.countP_eq_zero]
  intro a ha
  simpa using h a ha

theorem resolvePayloadParam_ok {l l2 : List InputParam} {decl : ParamDeclaration} {v : InputVar}
    (hinv : StateInv l) (h : resolvePayloadParam l decl = .ok (l2, v)) :
    listGrows l l2 ∧ StateInv l2 ∧ VarOk l2 v := by
  unfold resolvePayloadParam at h
  cases hf : l.find? (fun p => decide (p.paramKind = ParamKind.payload)) with
  | some p =>
    simp only [hf] at h
    by_cases hm : p.typeName = decl.typeName ∧ p.typePackage = decl.typePackage
    · rw [if_pos hm] at h
      simp only [Except.ok.injEq, Prod.mk.injEq] at h
      obtain ⟨rfl, rfl⟩ := h
      refine ⟨listGrows_refl l, hinv, ?_⟩
      obtain ⟨m, hm2, he⟩ := varOk_of_mem hinv.1 (List.mem_of_find?_eq_some hf)
      exact Or.inr ⟨m, hm2, he⟩
    · rw [if_neg hm] at h
      exact absurd h (by simp)
  | none =>
    simp only [hf] at h
    simp only [Except.ok.injEq, Prod.mk.injEq] at h
    obtain ⟨rfl, rfl⟩ := h
    have hc0 := payloadCount_eq_zero_of_find?_none hf
    obtain ⟨hinv2, hn2, hl2⟩ :=
      appendParam_spec l
        { paramKind := ParamKind.payload, paramName := decl.name, varName := "",
          typeName := decl.typeName, typePackage := decl.typePackage,
          inputVars := [], resolver := "", returnsError := true }
        hinv (by intro w hw; simp at hw) (fun _ => ⟨hc0, rfl⟩)
    refine ⟨⟨_, hl2⟩, hinv2, Or.inr ⟨l.length, ?_, hn2⟩⟩
    rw [hl2]
    simp

theorem resolveBuiltinParam_ok {l l2 : List InputParam} {decl : ParamDeclaration} {v : InputVar}
    (hinv : StateInv l) (h : resolveBuiltinParam l decl = .ok (l2, v)) :
    listGrows l l2 ∧ StateInv l2 ∧ VarOk l2 v := by
  unfold resolveBuiltinParam at h
  have hstep : ∀ (l1 : List InputParam) (vn : String),
      StateInv l1 → listGrows l l1 → (∃ m, m < l1.length ∧ vn = "param" ++ Nat.repr m) →
      (if decl.typeName = "string" then
          (Except.ok (l1, { varName := vn, pointerDepth := (decl.pointerDepth : Int) }) :
            Except String (List InputParam × InputVar))
        else
          match l1.find? (fun p =>
            decide (p.paramKind = ParamKind.convert ∧ p.paramName = decl.name ∧
              p.typeName = decl.typeName)) with
          | some p => .ok (l1, { varName := p.varName, pointerDepth := (decl.pointerDepth : Int) })
          | none =>
            let r := appendParam l1
              { paramKind := ParamKind.convert, paramName := decl.name, varName := "",
                typeName := decl.typeName, typePackage := "",
                inputVars := [{ varName := vn, pointerDepth := 0 }],
                resolver := "", returnsError := true }
            .ok (r.1, { varName := r.2, pointerDepth := (decl.pointerDepth : Int) })) =
        .ok (l2, v) →
      listGrows l l2 ∧ StateInv l2 ∧ VarOk l2 v := by
    intro l1 vn hinv1 hgrow1 hvn h
    by_cases hs : decl.typeName = "string"
    · rw [if_pos hs] at h
      simp only [Except.ok.injEq, Prod.mk.injEq] at h
      obtain ⟨rfl, rfl⟩ := h
      obtain ⟨m, hm, he⟩ := hvn
      exact ⟨hgrow1, hinv1, Or.inr ⟨m, hm, he⟩⟩
    · rw [if_neg hs] at h
      cases hf : l1.find? (fun p =>
          decide (p.paramKind = ParamKind.convert ∧ p.paramName = decl.name ∧
            p.typeName = decl.typeName)) with
      | some p =>
        simp only [hf] at h
        simp only [Except.ok.injEq, Prod.mk.injEq] at h
        obtain ⟨rfl, rfl⟩ := h
        refine ⟨hgrow1, hinv1, ?_⟩
        obtain ⟨m, hm2, he⟩ := varOk_of_mem hinv1.1 (List.mem_of_find?_eq_some hf)
        exact Or.inr ⟨m, hm2, he⟩
      | none =>
        simp only [hf] at h
        simp only [Except.ok.injEq, Prod.mk.injEq] at h
        obtain ⟨rfl, rfl⟩ := h
        obtain ⟨hinv2, hn2, hl2⟩ :=
          appendParam_spec l1
            { paramKind := ParamKind.convert, paramName := decl.name, varName := "",
              typeName := decl.typeName, typePackage := "",
              inputVars := [{ varName := vn, pointerDepth := 0 }],
              resolver := "", returnsError := true }
            hinv1
            (by
              intro w hw
              simp only [List.mem_singleton] at hw
              obtain ⟨m, hm, he⟩ := hvn
              exact Or.inr ⟨m, hm, by rw [hw]; exact he⟩)
            (by intro hk; exact absurd hk (by simp))
        refine ⟨listGrows_trans hgrow1 ⟨_, hl2⟩, hinv2, Or.inr ⟨l1.length, ?_, hn2⟩⟩
        rw [hl2]
        simp
  cases hfs : l.find? (fun p =>
      decide (p.paramKind = ParamKind.string ∧ p.paramName = decl.name)) with
  | some p =>
    simp only [hfs] at h
    refine hstep l p.varName hinv (listGrows_refl l) ?_ h
    exact varOk_of_mem hinv.1 (List.mem_of_find?_eq_some hfs)
  | none =>
    simp only [hfs] at h
    obtain ⟨hinv1, hn1, hl1⟩ :=
      appendParam_spec l
        { paramKind := ParamKind.string, paramName := decl.name, varName := "",
          typeName := "string", typePackage := "", inputVars := [],
          resolver := "", returnsError := false }
        hinv (by intro w hw; simp at hw) (by intro hk; exact absurd hk (by simp))
    refine hstep _ _ hinv1 ⟨_, hl1⟩ ⟨l.length, ?_, hn1⟩ h
    rw [hl1]
    simp

theorem resolveNativeParam_mem_natives {decl : ParamDeclaration} {v : InputVar}
    (h : resolveNativeParam decl = some v) : v.varName ∈ Natives := by
  unfold resolveNativeParam at h
  split at h
  · simp only [Option.some.injEq] at h
    rw [← h]
    simp [Natives]
  · split at h
    · simp only [Option.some.injEq] at h
      rw [← h]
      simp [Natives]
    · split at h
      · simp only [Option.some.injEq] at h
        rw [← h]
        simp [Natives]
      · exact absurd h (by simp)

theorem resolveList_ok
    {f : List InputParam → ParamDeclaration → Except String (List InputParam × InputVar)}
    (hf : ∀ {l l2 : List InputParam} {d : ParamDeclaration} {v : InputVar},
      StateInv l → f l d = .ok (l2, v) → listGrows l l2 ∧ StateInv l2 ∧ VarOk l2 v) :
    ∀ (ds : List ParamDeclaration) {l l2 : List InputParam} {vs : List InputVar},
      StateInv l → resolveList f l ds = .ok (l2, vs) →
      listGrows l l2 ∧ StateInv l2 ∧ ∀ v ∈ vs, VarOk l2 v := by
  intro ds
  induction ds with
  | nil =>
    intro l l2 vs hinv h
    simp only [resolveList, Except.ok.injEq, Prod.mk.injEq] at h
    obtain ⟨rfl, rfl⟩ := h
    exact ⟨listGrows_refl l, hinv, by intro v hv; simp at hv⟩
  | cons d rest ih =>
    intro l l2 vs hinv h
    simp only [resolveList] at h
    cases h1 : f l d with
    | error e => simp only [h1] at h; exact absurd h (by simp)
    | ok r =>
      obtain ⟨l1, v1⟩ := r
      simp only [h1] at h
      obtain ⟨hg1, hinv1, hv1⟩ := hf hinv h1
      cases h2 : resolveList f l1 rest with
      | error e => simp only [h2] at h; exact absurd h (by simp)
      | ok r2 =>
        obtain ⟨l3, vs3⟩ := r2
        simp only [h2] at h
        simp only [Except.ok.injEq, Prod.mk.injEq] at h
        obtain ⟨rfl, rfl⟩ := h
        obtain ⟨hg2, hinv2, hvs2⟩ := ih hinv1 h2
        refine ⟨listGrows_trans hg1 hg2, hinv2, ?_⟩
        intro v hv
        rcases List.mem_cons.mp hv with rfl | hv2
        · exact VarOk_mono hg2 hv1
        · exact hvs2 v hv2

theorem resolveResolvableParamF_ok
    {f : List InputParam → ParamDeclaration → Except String (List InputParam × InputVar)}
    (hf : ∀ {l l2 : List InputParam} {d : ParamDeclaration} {v : InputVar},
      StateInv l → f l d = .ok (l2, v) → listGrows l l2 ∧ StateInv l2 ∧ VarOk l2 v)
    {l l2 : List InputParam} {decl : ParamDeclaration} {rt : ResolvableType} {v : InputVar}
    (hinv : StateInv l) (h : resolveResolvableParamF f l decl rt = .ok (l2, v)) :
    listGrows l l2 ∧ StateInv l2 ∧ VarOk l2 v := by
  unfold resolveResolvableParamF at h
  cases hfind : l.find? (fun p =>
      decide (p.paramKind = ParamKind.resolve ∧ p.typeName = rt.typeName ∧
        p.typePackage = rt.typePackage)) with
  | some p =>
    simp only [hfind] at h
    simp only [Except.ok.injEq, Prod.mk.injEq] at h
    obtain ⟨rfl, rfl⟩ := h
    refine ⟨listGrows_refl l, hinv, ?_⟩
    obtain ⟨m, hm2, he⟩ := varOk_of_mem hinv.1 (List.mem_of_find?_eq_some hfind)
    exact Or.inr ⟨m, hm2, he⟩
  | none =>
    simp only [hfind] at h
    cases hlist : resolveList f l rt.resolver.inputParams with
    | error e => simp only [hlist] at h; exact absurd h (by simp)
    | ok r =>
      obtain ⟨l1, inputVars⟩ := r
      simp only [hlist] at h
      simp only [Except.ok.injEq, Prod.mk.injEq] at h
      obtain ⟨rfl, rfl⟩ := h
      obtain ⟨hg1, hinv1, hvars⟩ := resolveList_ok hf rt.resolver.inputParams hinv hlist
      obtain ⟨hinv2, hn2, hl2⟩ :=
        appendParam_spec l1
          { paramKind := ParamKind.resolve, paramName := decl.name, varName := "",
            typeName := rt.typeName, typePackage := rt.typePackage,
            inputVars := inputVars, resolver := rt.resolver.name,
            returnsError := rt.returnsError }
          hinv1 (by intro w hw; exact hvars w hw)
          (by intro hk; exact absurd hk (by simp))
      refine ⟨listGrows_trans hg1 ⟨_, hl2⟩, hinv2, Or.inr ⟨l1.length, ?_, hn2⟩⟩
      rw [hl2]
      simp

theorem resolveParam_ok :
    ∀ (fuel : Nat) (resolvables : List ResolvableType)
      {l l2 : List InputParam} {d : ParamDeclaration} {v : InputVar},
      StateInv l → resolveParam fuel l d resolvables = .ok (l2, v) →
      listGrows l l2 ∧ StateInv l2 ∧ VarOk l2 v := by
  intro fuel
  induction fuel with
  | zero =>
    intro rs l l2 d v _ h
    exact absurd h (by simp [resolveParam])
  | succ fuel ih =>
    intro rs l l2 d v hinv h
    unfold resolveParam at h
    by_cases hptr : d.pointerDepth > 1
    · rw [if_pos hptr] at h
      exact absurd h (by simp)
    · rw [if_neg hptr] at h
      cases hnat : resolveNativeParam d with
      | some v0 =>
        simp only [hnat] at h
        simp only [Except.ok.injEq, Prod.mk.injEq] at h
        obtain ⟨rfl, rfl⟩ := h
        exact ⟨listGrows_refl l, hinv, Or.inl (resolveNativeParam_mem_natives hnat)⟩
      | none =>
        simp only [hnat] at h
        cases hfind : findResolver rs d with
        | some rt =>
          simp only [hfind] at h
          exact resolveResolvableParamF_ok (fun hi he => ih rs hi he) hinv h
        | none =>
          simp only [hfind] at h
          by_cases hb : d.isBuiltIn
          · rw [if_pos hb] at h
            exact resolveBuiltinParam_ok hinv h
          · rw [if_neg hb] at h
            exact resolvePayloadParam_ok hinv h

theorem resolveParams_ok {fuel : Nat} {resolvables : List ResolvableType}
    {decls : List ParamDeclaration} {l l2 : List InputParam} {vs : List InputVar}
    (hinv : StateInv l) (h : resolveParams fuel l decls resolvables = .ok (l2, vs)) :
    listGrows l l2 ∧ StateInv l2 ∧ ∀ v ∈ vs, VarOk l2 v := by
  unfold resolveParams at h
  exact resolveList_ok (fun hi he => resolveParam_ok fuel resolvables hi he) decls hinv h

theorem topoOk_of_inv {l : List InputParam} (hinv : StateInv l) : TopoOk l := by
  intro k v hv j hj
  have hnamej := hinv.1 j
  rcases hinv.2.1 k v hv with hnat | ⟨m, hm, he⟩
  · rw [hnamej] at hj
    exact absurd hj (param_append_ne_native _ _ hnat)
  · rw [hnamej, he] at hj
    have := param_varName_inj hj
    omega

theorem movePayloadLast_no_payload :
    ∀ (l : List InputParam), (∀ p ∈ l, p.paramKind ≠ ParamKind.payload) →
      movePayloadLast l = l := by
  intro l
  induction l with
  | nil => intro _; rfl
  | cons a rest ih =>
    intro h
    unfold movePayloadLast
    rw [if_neg (h a (by simp)), ih (fun p hp => h p (by simp [hp]))]

theorem movePayloadLast_first (A : List InputParam) (pay : InputParam) (B : List InputParam)
    (hA : ∀ a ∈ A, a.paramKind ≠ ParamKind.payload)
    (hpay : pay.paramKind = ParamKind.payload) :
    movePayloadLast (A ++ pay :: B) = A ++ (B ++ [pay]) := by
  induction A with
  | nil =>
    simp only [List.nil_append]
    unfold movePayloadLast
    rw [if_pos hpay]
  | cons a A ih =>
    simp only [List.cons_append]
    unfold movePayloadLast
    rw [if_neg (hA a (by simp)), ih (fun p hp => hA p (by simp [hp]))]

theorem movePayloadLast_perm (l : List InputParam) : (movePayloadLast l).Perm l := by
  induction l with
  | nil => simp [movePayloadLast]
  | cons a rest ih =>
    unfold movePayloadLast
    by_cases ha : a.paramKind = ParamKind.payload
    · rw [if_pos ha]
      exact List.perm_append_singleton a rest
    · rw [if_neg ha]
      exact List.Perm.cons a ih

theorem exists_first_payload :
    ∀ {l : List InputParam}, (∃ p ∈ l, p.paramKind = ParamKind.payload) →
      ∃ A pay B, l = A ++ pay :: B ∧ pay.paramKind = ParamKind.payload ∧
        ∀ a ∈ A, a.paramKind ≠ ParamKind.payload := by
  intro l
  induction l with
  | nil => intro h; simp at h
  | cons a rest ih =>
    intro h
    by_cases ha : a.paramKind = ParamKind.payload
    · exact ⟨[], a, rest, by simp, ha, by simp⟩
    · obtain ⟨p, hp, hpk⟩ := h
      rcases List.mem_cons.mp hp with rfl | hp2
      · exact absurd hpk ha
      · obtain ⟨A, pay, B, hsplit, hpayk, hA⟩ := ih ⟨p, hp2, hpk⟩
        refine ⟨a :: A, pay, B, by simp [hsplit], hpayk, ?_⟩
        intro x hx
        rcases List.mem_cons.mp hx with rfl | hx2
        · exact ha
        · exact hA x hx2

theorem b_no_payload {A : List InputParam} {pay : InputParam} {B : List InputParam}
    (hpay : pay.paramKind = ParamKind.payload)
    (hcount : payloadCount (A ++ pay :: B) ≤ 1) :
    ∀ b ∈ B, b.paramKind ≠ ParamKind.payload := by
  rw [payloadCount_append] at hcount
  simp only [payloadCount, List.countP_cons] at hcount
  simp only [hpay, decide_eq_true_eq, if_true] at hcount
  have hB : List.countP (fun p => decide (p.paramKind = ParamKind.payload)) B = 0 := by omega
  rw [List.countP_eq_zero] at hB
  intro b hb hk
  have := hB b hb
  simp [hk] at this

theorem get_moved_lt (A : List InputParam) (pay : InputParam) (B : List InputParam) (i : Nat)
    (hi : i < A.length) (h1 : i < (A ++ (B ++ [pay])).length)
    (h2 : i < (A ++ pay :: B).length) :
    (A ++ (B ++ [pay])).get ⟨i, h1⟩ = (A ++ pay :: B).get ⟨i, h2⟩ := by
  simp only [List.get_eq_getElem]
  rw [List.getElem_append_left hi, List.getElem_append_left hi]

theorem get_cons_of_eq_succ (x : InputParam) (L : List InputParam) (n k : Nat)
    (hk : n = k + 1) (h : n < (x :: L).length) :
    (x :: L).get ⟨n, h⟩ = L.get ⟨k, by simp only [List.length_cons] at h; omega⟩ := by
  subst hk
  rfl

theorem get_moved_mid (A : List InputParam) (pay : InputParam) (B : List InputParam) (i : Nat)
    (hge : A.length ≤ i) (hi : i < A.length + B.length)
    (h1 : i < (A ++ (B ++ [pay])).length) (h2 : i + 1 < (A ++ pay :: B).length) :
    (A ++ (B ++ [pay])).get ⟨i, h1⟩ = (A ++ pay :: B).get ⟨i + 1, h2⟩ := by
  simp only [List.get_eq_getElem]
  rw [List.getElem_append_right hge, List.getElem_append_right (by omega : A.length ≤ i + 1)]
  rw [List.getElem_append_left (by omega : i - A.length < B.length)]
  have he : i + 1 - A.length = (i - A.length) + 1 := by omega
  simp only [he, List.getElem_cons_succ]

theorem get_moved_last (A : List InputParam) (pay : InputParam) (B : List InputParam)
    (h1 : A.length + B.length < (A ++ (B ++ [pay])).length) :
    (A ++ (B ++ [pay])).get ⟨A.length + B.length, h1⟩ = pay := by
  simp only [List.get_eq_getElem]
  rw [List.getElem_append_right (by omega : A.length ≤ A.length + B.length)]
  rw [List.getElem_append_right (by omega : B.length ≤ A.length + B.length - A.length)]
  simp

theorem topo_after_move {l : List InputParam} (hinv : StateInv l) :
    ∀ (k j : Fin (movePayloadLast l).length),
      ∀ v ∈ ((movePayloadLast l).get k).inputVars,
        ((movePayloadLast l).get j).varName = v.varName →
        ((movePayloadLast l).get j).paramKind ≠ ParamKind.payload →
        j.val < k.val := by
  by_cases hex : ∃ p ∈ l, p.paramKind = ParamKind.payload
  · obtain ⟨A, pay, B, hsplit, hpayk, hA⟩ := exists_first_payload hex
    subst hsplit
    rw [movePayloadLast_first A pay B hA hpayk]
    intro k j v hv hname hnp
    have hMlen : (A ++ (B ++ [pay])).length = A.length + B.length + 1 := by
      rw [List.length_append, List.length_append, List.length_cons, List.length_nil]
      omega
    have hllen : (A ++ pay :: B).length = A.length + B.length + 1 := by
      rw [List.length_append, List.length_cons]
      omega
    have key : ∀ (i : Fin (A ++ (B ++ [pay])).length), i.val ≠ A.length + B.length →
        ∃ i0 : Nat, ∃ h0 : i0 < (A ++ pay :: B).length,
          (A ++ (B ++ [pay])).get i = (A ++ pay :: B).get ⟨i0, h0⟩ ∧
          ((i.val < A.length ∧ i0 = i.val) ∨ (A.length ≤ i.val ∧ i0 = i.val + 1)) := by
      intro i hne
      rcases Nat.lt_or_ge i.val A.length with hlt | hge
      · exact ⟨i.val, by rw [hllen]; omega,
          get_moved_lt A pay B i.val hlt i.isLt (by rw [hllen]; omega), Or.inl ⟨hlt, rfl⟩⟩
      · have hlt2 : i.val < A.length + B.length := by
          have h1 := i.isLt
          omega
        exact ⟨i.val + 1, by rw [hllen]; omega,
          get_moved_mid A pay B i.val hge hlt2 i.isLt (by rw [hllen]; omega),
          Or.inr ⟨hge, rfl⟩⟩
    by_cases hkL : k.val = A.length + B.length
    · -- the moved payload step has no dependencies
      have hgetk : (A ++ (B ++ [pay])).get k = pay := by
        rw [show k = (⟨A.length + B.length, by rw [hMlen]; omega⟩ :
          Fin (A ++ (B ++ [pay])).length) from Fin.ext hkL]
        exact get_moved_last A pay B _
      rw [hgetk] at hv
      rw [hinv.2.2.1 pay (by simp) hpayk] at hv
      simp at hv
    · by_cases hjL : j.val = A.length + B.length
      · have hgetj : (A ++ (B ++ [pay])).get j = pay := by
          rw [show j = (⟨A.length + B.length, by rw [hMlen]; omega⟩ :
            Fin (A ++ (B ++ [pay])).length) from Fin.ext hjL]
          exact get_moved_last A pay B _
        rw [hgetj] at hnp
        exact absurd hpayk hnp
      · obtain ⟨k0, hk0, hgetk, hkcase⟩ := key k hkL
        obtain ⟨j0, hj0, hgetj, hjcase⟩ := key j hjL
        rw [hgetk] at hv
        rw [hgetj] at hname
        have hnamej := hinv.1 ⟨j0, hj0⟩
        rcases hinv.2.1 ⟨k0, hk0⟩ v hv with hnat | ⟨m, hm, he⟩
        · rw [hnamej] at hname
          exact absurd hname (param_append_ne_native _ _ hnat)
        · rw [hnamej, he] at hname
          have hj0m : j0 = m := param_varName_inj hname
          have hmk : m < k0 := hm
          rcases hkcase with ⟨hka, hke⟩ | ⟨hka, hke⟩ <;>
            rcases hjcase with ⟨hja, hje⟩ | ⟨hja, hje⟩ <;> omega
  · have hnp2 : ∀ p ∈ l, p.paramKind ≠ ParamKind.payload := by
      intro p hp hk
      exact hex ⟨p, hp, hk⟩
    rw [movePayloadLast_no_payload l hnp2]
    intro k j v hv hname _
    exact topoOk_of_inv hinv k v hv j hname

theorem names_nodup_of_indexed {l : List InputParam} (hidx : varNamesIndexed l) :
    (l.map (fun p => p.varName)).Nodup := by
  rw [List.nodup_iff_injective_get]
  intro a b hab
  simp only [List.get_eq_getElem, List.getElem_map] at hab
  have ha := hidx ⟨a.val, by simpa using a.isLt⟩
  have hb := hidx ⟨b.val, by simpa using b.isLt⟩
  simp only [List.get_eq_getElem] at ha hb
  rw [ha, hb] at hab
  exact Fin.ext (param_varName_inj hab)

theorem names_not_native_of_indexed {l : List InputParam} (hidx : varNamesIndexed l) :
    ∀ p ∈ l, p.varName ∉ Natives := by
  intro p hp hmem
  obtain ⟨m, _, he⟩ := varOk_of_mem hidx hp
  rw [he] at hmem
  exact param_append_ne_native (Nat.repr m) ("param" ++ Nat.repr m) hmem rfl

theorem resolveNativeParam_depth_le {decl : ParamDeclaration} {v : InputVar}
    (h : resolveNativeParam decl = some v) : decl.pointerDepth ≤ 1 := by
  unfold resolveNativeParam at h
  split at h
  next hc => omega
  next =>
    split at h
    next hc => omega
    next =>
      split at h
      next hc => omega
      next => exact absurd h (by simp)

theorem resolveParam_native_noop (fuel : Nat) (l : List InputParam) (d : ParamDeclaration)
    (rs : List ResolvableType) (v : InputVar) (hn : resolveNativeParam d = some v) :
    resolveParam (fuel + 1) l d rs = .ok (l, v) := by
  have hd := resolveNativeParam_depth_le hn
  unfold resolveParam
  rw [if_neg (by omega)]
  simp [hn]

/-! ## Claim theorems -/

/-- Claim C1 (counterexample): with a resolver whose own input parameter
resolves as a payload, resolution succeeds, but after the payload step is
relocated to the end, the resolve step at index 0 still references the
payload step's variable `param0`, which now sits at index 1 — the claimed
strict lower-index order fails on the final step list. -/
theorem topo_claim_counterexample :
    analyzeResolvers [resolverT] = .ok [resolvableT] ∧
    resolveParams 2 [] declsT [resolvableT] =
      .ok (stepsT, [{ varName := "param1", pointerDepth := 0 }]) ∧
    ¬ TopoOk (movePayloadLast stepsT) :=
  ⟨rfl, rfl, by decide⟩

/-- Claim C1 (amended): for every successful resolution, the claimed
strict order holds for the step list before payload relocation, and after
the relocation every dependency that names a non-payload step still
refers to a strictly lower index; a dependency on the relocated payload
step itself can point forward, as the counterexample shows. -/
theorem topo_order_resolution (fuel : Nat) (decls : List ParamDeclaration)
    (resolvables : List ResolvableType) (l : List InputParam) (vars : List InputVar)
    (h : resolveParams fuel [] decls resolvables = .ok (l, vars)) :
    TopoOk l ∧
    ∀ (k j : Fin (movePayloadLast l).length),
      ∀ v ∈ ((movePayloadLast l).get k).inputVars,
        ((movePayloadLast l).get j).varName = v.varName →
        ((movePayloadLast l).get j).paramKind ≠ ParamKind.payload →
        j.val < k.val := by
  obtain ⟨-, hinv, -⟩ := resolveParams_ok stateInv_nil h
  exact ⟨topoOk_of_inv hinv, topo_after_move hinv⟩

/-- Witness for the amended C1 theorem at a concrete resolution. -/
theorem topo_order_resolution_witness :
    resolveParams 1 [] [declName] [] =
      .ok ([stepName], [{ varName := "param0", pointerDepth := 0 }]) ∧
    (TopoOk [stepName] ∧
      ∀ (k j : Fin (movePayloadLast [stepName]).length),
        ∀ v ∈ ((movePayloadLast [stepName]).get k).inputVars,
          ((movePayloadLast [stepName]).get j).varName = v.varName →
          ((movePayloadLast [stepName]).get j).paramKind ≠ ParamKind.payload →
          j.val < k.val) :=
  ⟨rfl, topo_order_resolution 1 [declName] [] [stepName]
    [{ varName := "param0", pointerDepth := 0 }] rfl⟩

/-- Claim C2: every final step list carries at most one payload step;
resolving a second non-native, non-resolvable, non-built-in parameter
reuses the existing payload step's variable on a matching type identity
and fails with a conflict error naming both parameters otherwise. -/
theorem payload_singularity :
    (∀ (fuel : Nat) (decls : List ParamDeclaration) (rs : List ResolvableType)
        (l : List InputParam) (vars : List InputVar),
        resolveParams fuel [] decls rs = .ok (l, vars) →
        payloadCount (movePayloadLast l) ≤ 1) ∧
    (∀ (fuel : Nat) (l : List InputParam) (d : ParamDeclaration) (rs : List ResolvableType)
        (p : InputParam),
        d.pointerDepth ≤ 1 → resolveNativeParam d = none → findResolver rs d = none →
        d.isBuiltIn = false →
        l.find? (fun q => decide (q.paramKind = ParamKind.payload)) = some p →
        p.typeName = d.typeName → p.typePackage = d.typePackage →
        resolveParam (fuel + 1) l d rs =
          .ok (l, { varName := p.varName, pointerDepth := (d.pointerDepth : Int) })) ∧
    (∀ (fuel : Nat) (l : List InputParam) (d : ParamDeclaration) (rs : List ResolvableType)
        (p : InputParam),
        d.pointerDepth ≤ 1 → resolveNativeParam d = none → findResolver rs d = none →
        d.isBuiltIn = false →
        l.find? (fun q => decide (q.paramKind = ParamKind.payload)) = some p →
        ¬(p.typeName = d.typeName ∧ p.typePackage = d.typePackage) →
        resolveParam (fuel + 1) l d rs =
          .error ("cannot resolve param " ++ d.name ++ ", because " ++ p.paramName ++
            " is already claiming the payload")) := by
  refine ⟨?_, ?_, ?_⟩
  · intro fuel decls rs l vars h
    obtain ⟨-, hinv, -⟩ := resolveParams_ok stateInv_nil h
    rw [payloadCount, List.Perm.countP_eq _ (movePayloadLast_perm l)]
    exact hinv.2.2.2
  · intro fuel l d rs p hdep hnat hfind hbuilt hfp htn htp
    unfold resolveParam
    rw [if_neg (by omega)]
    simp only [hnat, hfind]
    rw [if_neg (by simp [hbuilt])]
    unfold resolvePayloadParam
    simp only [hfp]
    rw [if_pos ⟨htn, htp⟩]
  · intro fuel l d rs p hdep hnat hfind hbuilt hfp hne
    unfold resolveParam
    rw [if_neg (by omega)]
    simp only [hnat, hfind]
    rw [if_neg (by simp [hbuilt])]
    unfold resolvePayloadParam
    simp only [hfp]
    rw [if_neg hne]

/-- Witness for C2: the counterexample run carries one payload step, a
matching second payload request reuses `param0`, a mismatched one
conflicts naming `b` and `a`. -/
theorem payload_singularity_witness :
    payloadCount (movePayloadLast stepsT) ≤ 1 ∧
    resolveParam 1 [stepPayloadP] declSameP [] =
      .ok ([stepPayloadP], { varName := "param0", pointerDepth := 0 }) ∧
    resolveParam 1 [stepPayloadP] declOtherQ [] =
      .error "cannot resolve param b, because a is already claiming the payload" :=
  ⟨payload_singularity.1 2 declsT [resolvableT] stepsT
      [{ varName := "param1", pointerDepth := 0 }] rfl,
   payload_singularity.2.1 0 [stepPayloadP] declSameP [] stepPayloadP
      (by decide) rfl rfl rfl rfl rfl rfl,
   payload_singularity.2.2 0 [stepPayloadP] declOtherQ [] stepPayloadP
      (by decide) rfl rfl rfl rfl (by decide)⟩

/-- Claim C3: when a payload step exists in a successfully resolved step
list, post-processing puts exactly that step last and keeps every other
step in its original relative order (the moved list is the payload-free
sublist followed by the payload step). -/
theorem payload_moved_last (fuel : Nat) (decls : List ParamDeclaration)
    (rs : List ResolvableType) (l : List InputParam) (vars : List InputVar)
    (h : resolveParams fuel [] decls rs = .ok (l, vars))
    (hex : ∃ p ∈ l, p.paramKind = ParamKind.payload) :
    ∃ pay, pay.paramKind = ParamKind.payload ∧
      movePayloadLast l =
        l.filter (fun q => !decide (q.paramKind = ParamKind.payload)) ++ [pay] ∧
      (movePayloadLast l).getLast? = some pay := by
  obtain ⟨-, hinv, -⟩ := resolveParams_ok stateInv_nil h
  obtain ⟨A, pay, B, hsplit, hpayk, hA⟩ := exists_first_payload hex
  have hB := b_no_payload hpayk (hsplit ▸ hinv.2.2.2)
  subst hsplit
  refine ⟨pay, hpayk, ?_, ?_⟩
  · rw [movePayloadLast_first A pay B hA hpayk, List.filter_append]
    have hfA : A.filter (fun q => !decide (q.paramKind = ParamKind.payload)) = A :=
      List.filter_eq_self.mpr (by intro a ha; simpa using hA a ha)
    have hfB : B.filter (fun q => !decide (q.paramKind = ParamKind.payload)) = B :=
      List.filter_eq_self.mpr (by intro b hb; simpa using hB b hb)
    rw [List.filter_cons]
    simp [hfA, hfB, hpayk]
  · rw [movePayloadLast_first A pay B hA hpayk,
      show A ++ (B ++ [pay]) = (A ++ B) ++ [pay] by simp, List.getLast?_concat]

/-- Witness for C3 on the concrete payload-carrying run. -/
theorem payload_moved_last_witness :
    resolveParams 2 [] declsT [resolvableT] =
      .ok (stepsT, [{ varName := "param1", pointerDepth := 0 }]) ∧
    (∃ p ∈ stepsT, p.paramKind = ParamKind.payload) ∧
    ∃ pay, pay.paramKind = ParamKind.payload ∧
      movePayloadLast stepsT =
        stepsT.filter (fun q => !decide (q.paramKind = ParamKind.payload)) ++ [pay] ∧
      (movePayloadLast stepsT).getLast? = some pay :=
  ⟨rfl, by decide,
   payload_moved_last 2 declsT [resolvableT] stepsT
     [{ varName := "param1", pointerDepth := 0 }] rfl (by decide)⟩

/-- Claim C9: pointer depth at least 2 is rejected first, with an error
naming the parameter, for every list state, catalog and parameter —
including native, resolvable, built-in and payload-typed ones — so no
step is ever appended for such a parameter. -/
theorem pointer_rejection (fuel : Nat) (l : List InputParam) (d : ParamDeclaration)
    (rs : List ResolvableType) (h : 2 ≤ d.pointerDepth) :
    resolveParam (fuel + 1) l d rs =
      .error (d.name ++ ": pointers of pointers are not supported") := by
  unfold resolveParam
  rw [if_pos (by omega)]

/-- Witness for C9 at a `**net/http.Request`-like parameter. -/
theorem pointer_rejection_witness :
    2 ≤ ({ name := "x", typeName := "Request", typePackage := "net/http",
           pointerDepth := 2, isBuiltIn := false } : ParamDeclaration).pointerDepth ∧
    resolveParam 1 []
      { name := "x", typeName := "Request", typePackage := "net/http",
        pointerDepth := 2, isBuiltIn := false } [] =
      .error "x: pointers of pointers are not supported" :=
  ⟨by decide,
   pointer_rejection 0 []
     { name := "x", typeName := "Request", typePackage := "net/http",
       pointerDepth := 2, isBuiltIn := false } [] (by decide)⟩

/-- Claim C10: after a successful resolution and the payload relocation,
all step variable names are pairwise distinct, none coincides with the
fixed native references, and a native parameter resolves to its fixed
reference without touching the step list. -/
theorem varNames_distinct (fuel : Nat) (decls : List ParamDeclaration)
    (rs : List ResolvableType) (l : List InputParam) (vars : List InputVar)
    (h : resolveParams fuel [] decls rs = .ok (l, vars)) :
    ((movePayloadLast l).map (fun p => p.varName)).Nodup ∧
    (∀ p ∈ movePayloadLast l, p.varName ∉ Natives) ∧
    ∀ (fuel2 : Nat) (l0 : List InputParam) (d : ParamDeclaration)
      (rs2 : List ResolvableType) (v : InputVar),
      resolveNativeParam d = some v →
      resolveParam (fuel2 + 1) l0 d rs2 = .ok (l0, v) ∧ v.varName ∈ Natives := by
  obtain ⟨-, hinv, -⟩ := resolveParams_ok stateInv_nil h
  refine ⟨?_, ?_, ?_⟩
  · exact ((List.Perm.map _ (movePayloadLast_perm l)).symm).nodup
      (names_nodup_of_indexed hinv.1)
  · intro p hp
    exact names_not_native_of_indexed hinv.1 p ((movePayloadLast_perm l).mem_iff.mp hp)
  · intro fuel2 l0 d rs2 v hn
    exact ⟨resolveParam_native_noop fuel2 l0 d rs2 v hn, resolveNativeParam_mem_natives hn⟩

/-- Witness for C10 on a concrete run and the three native parameters. -/
theorem varNames_distinct_witness :
    resolveParams 2 [] declsT [resolvableT] =
      .ok (stepsT, [{ varName := "param1", pointerDepth := 0 }]) ∧
    (((movePayloadLast stepsT).map (fun p => p.varName)).Nodup ∧
      (∀ p ∈ movePayloadLast stepsT, p.varName ∉ Natives) ∧
      ∀ (fuel2 : Nat) (l0 : List InputParam) (d : ParamDeclaration)
        (rs2 : List ResolvableType) (v : InputVar),
        resolveNativeParam d = some v →
        resolveParam (fuel2 + 1) l0 d rs2 = .ok (l0, v) ∧ v.varName ∈ Natives) :=
  ⟨rfl, varNames_distinct 2 declsT [resolvableT] stepsT
    [{ varName := "param1", pointerDepth := 0 }] rfl⟩

/-- A successful resolver expansion leaves a resolve step with the
produced type identity in the resulting step list. -/
theorem resolveResolvable_mem
    {f : List InputParam → ParamDeclaration → Except String (List InputParam × InputVar)}
    {l l2 : List InputParam} {d : ParamDeclaration} {rt : ResolvableType} {v : InputVar}
    (h : resolveResolvableParamF f l d rt = .ok (l2, v)) :
    ∃ p ∈ l2, p.paramKind = ParamKind.resolve ∧ p.typeName = rt.typeName ∧
      p.typePackage = rt.typePackage := by
  unfold resolveResolvableParamF at h
  cases hf : l.find? (fun p =>
      decide (p.paramKind = ParamKind.resolve ∧ p.typeName = rt.typeName ∧
        p.typePackage = rt.typePackage)) with
  | some p =>
    simp only [hf, Except.ok.injEq, Prod.mk.injEq] at h
    obtain ⟨rfl, rfl⟩ := h
    refine ⟨p, List.mem_of_find?_eq_some hf, ?_⟩
    have := List.find?_some hf
    simpa using this
  | none =>
    simp only [hf] at h
    cases hlist : resolveList f l rt.resolver.inputParams with
    | error e => simp only [hlist] at h; exact absurd h (by simp)
    | ok r =>
      obtain ⟨l1, vars⟩ := r
      simp only [hlist, Except.ok.injEq, Prod.mk.injEq] at h
      obtain ⟨rfl, rfl⟩ := h
      refine ⟨{ paramKind := ParamKind.resolve, paramName := d.name,
                varName := "param" ++ Nat.repr l1.length, typeName := rt.typeName,
                typePackage := rt.typePackage, inputVars := vars,
                resolver := rt.resolver.name, returnsError := rt.returnsError },
              ?_, rfl, rfl, rfl⟩
      simp [appendParam]

/-- Claim C4: steps are deduplicated by their kind-specific keys — a
`string` step by (kind, parameter name), a `convert` step by (name, type
name), a `resolve` step by (type name, type package) — an already-present
key returns the existing variable without changing the list, and a second
request for the same resolvable identity leaves the list untouched. -/
theorem step_dedup :
    (∀ (l : List InputParam) (d : ParamDeclaration) (p : InputParam),
        d.typeName = "string" →
        l.find? (fun q => decide (q.paramKind = ParamKind.string ∧ q.paramName = d.name)) =
          some p →
        resolveBuiltinParam l d =
          .ok (l, { varName := p.varName, pointerDepth := (d.pointerDepth : Int) })) ∧
    (∀ (l : List InputParam) (d : ParamDeclaration) (p q : InputParam),
        d.typeName ≠ "string" →
        l.find? (fun s => decide (s.paramKind = ParamKind.string ∧ s.paramName = d.name)) =
          some p →
        l.find? (fun s => decide (s.paramKind = ParamKind.convert ∧ s.paramName = d.name ∧
          s.typeName = d.typeName)) = some q →
        resolveBuiltinParam l d =
          .ok (l, { varName := q.varName, pointerDepth := (d.pointerDepth : Int) })) ∧
    (∀ (fuel : Nat) (l : List InputParam) (d : ParamDeclaration) (rs : List ResolvableType)
        (rt : ResolvableType) (p : InputParam),
        d.pointerDepth ≤ 1 → resolveNativeParam d = none → findResolver rs d = some rt →
        l.find? (fun s => decide (s.paramKind = ParamKind.resolve ∧ s.typeName = rt.typeName ∧
          s.typePackage = rt.typePackage)) = some p →
        resolveParam (fuel + 1) l d rs =
          .ok (l, { varName := p.varName,
                    pointerDepth := (d.pointerDepth : Int) - (rt.returnsPointer : Int) })) ∧
    (∀ (fuel fuel2 : Nat) (l l2 : List InputParam) (d d2 : ParamDeclaration)
        (rs : List ResolvableType) (rt : ResolvableType) (v : InputVar),
        d.pointerDepth ≤ 1 → resolveNativeParam d = none → findResolver rs d = some rt →
        d2.pointerDepth ≤ 1 → resolveNativeParam d2 = none → findResolver rs d2 = some rt →
        resolveParam (fuel + 1) l d rs = .ok (l2, v) →
        ∃ v2, resolveParam (fuel2 + 1) l2 d2 rs = .ok (l2, v2)) := by
  refine ⟨?_, ?_, ?_, ?_⟩
  · intro l d p hs hf
    unfold resolveBuiltinParam
    simp only [hf]
    rw [if_pos hs]
  · intro l d p q hs hfs hfc
    unfold resolveBuiltinParam
    simp only [hfs]
    rw [if_neg hs]
    simp only [hfc]
  · intro fuel l d rs rt p hdep hnat hfind hfp
    unfold resolveParam
    rw [if_neg (by omega)]
    simp only [hnat, hfind]
    unfold resolveResolvableParamF
    simp only [hfp]
  · intro fuel fuel2 l l2 d d2 rs rt v hdep hnat hfind hdep2 hnat2 hfind2 h
    have hmem : ∃ p ∈ l2, p.paramKind = ParamKind.resolve ∧ p.typeName = rt.typeName ∧
        p.typePackage = rt.typePackage := by
      unfold resolveParam at h
      rw [if_neg (by omega)] at h
      simp only [hnat, hfind] at h
      exact resolveResolvable_mem h
    obtain ⟨p, hp, hpk, hpt, hpp⟩ := hmem
    have hsome : (l2.find? (fun s => decide (s.paramKind = ParamKind.resolve ∧
        s.typeName = rt.typeName ∧ s.typePackage = rt.typePackage))).isSome = true :=
      List.find?_isSome.mpr ⟨p, hp, by simp [hpk, hpt, hpp]⟩
    obtain ⟨q, hq⟩ := Option.isSome_iff_exists.mp hsome
    refine ⟨{ varName := q.varName,
              pointerDepth := (d2.pointerDepth : Int) - (rt.returnsPointer : Int) }, ?_⟩
    unfold resolveParam
    rw [if_neg (by omega)]
    simp only [hnat2, hfind2]
    unfold resolveResolvableParamF
    simp only [hq]

/-- Witness for C4: string, convert and resolve dedup on concrete lists,
and a second request for `app.User` after a first resolution. -/
theorem step_dedup_witness :
    resolveBuiltinParam [stepName] declName =
      .ok ([stepName], { varName := "param0", pointerDepth := 0 }) ∧
    resolveBuiltinParam [stepIdStr, stepIdInt] declId =
      .ok ([stepIdStr, stepIdInt], { varName := "param1", pointerDepth := 0 }) ∧
    resolveParam 1 [stepUser] declUser2 [resolvableUser] =
      .ok ([stepUser], { varName := "param0", pointerDepth := 0 }) ∧
    ∃ v2, resolveParam 1 [stepUser] declUser2 [resolvableUser] = .ok ([stepUser], v2) :=
  ⟨step_dedup.1 [stepName] declName stepName rfl rfl,
   step_dedup.2.1 [stepIdStr, stepIdInt] declId stepIdStr stepIdInt (by decide) rfl rfl,
   step_dedup.2.2.1 0 [stepUser] declUser2 [resolvableUser] resolvableUser stepUser
     (by decide) rfl rfl rfl,
   step_dedup.2.2.2 0 0 [] [stepUser] declUser declUser2 [resolvableUser] resolvableUser
     { varName := "param0", pointerDepth := 0 } (by decide) rfl rfl (by decide) rfl rfl rfl⟩

/-- Claim C7: output contract classification — 0 outputs: neither; 1
output: error-only iff it is the built-in error type, else value-only; 2
outputs: both iff the second is the error type, else an invalid-signature
error; 3 or more outputs: an error. -/
theorem output_contract :
    (analyzeEndpointOutput [] = .ok (false, false)) ∧
    (∀ p : ParamDeclaration, isErrorParam p = true →
      analyzeEndpointOutput [p] = .ok (false, true)) ∧
    (∀ p : ParamDeclaration, isErrorParam p = false →
      analyzeEndpointOutput [p] = .ok (true, false)) ∧
    (∀ p q : ParamDeclaration, isErrorParam q = true →
      analyzeEndpointOutput [p, q] = .ok (true, true)) ∧
    (∀ p q : ParamDeclaration, isErrorParam q = false →
      analyzeEndpointOutput [p, q] = .error "the second return value must be of type error") ∧
    (∀ (p q r : ParamDeclaration) (rest : List ParamDeclaration),
      analyzeEndpointOutput (p :: q :: r :: rest) =
        .error "an endpoint can only return 1 or 2 values: either a value, an error or both") := by
  refine ⟨rfl, ?_, ?_, ?_, ?_, ?_⟩
  · intro p h
    simp [analyzeEndpointOutput, h]
  · intro p h
    simp [analyzeEndpointOutput, h]
  · intro p q h
    simp [analyzeEndpointOutput, h]
  · intro p q h
    simp [analyzeEndpointOutput, h]
  · intro p q r rest
    rfl

/-- Witness for C7 on concrete error and value outputs. -/
theorem output_contract_witness :
    (isErrorParam declErrOut = true ∧ isErrorParam declValOut = false) ∧
    analyzeEndpointOutput [declErrOut] = .ok (false, true) ∧
    analyzeEndpointOutput [declValOut] = .ok (true, false) ∧
    analyzeEndpointOutput [declValOut, declErrOut] = .ok (true, true) ∧
    analyzeEndpointOutput [declValOut, declValOut] =
      .error "the second return value must be of type error" ∧
    analyzeEndpointOutput [declValOut, declValOut, declErrOut] =
      .error "an endpoint can only return 1 or 2 values: either a value, an error or both" :=
  ⟨⟨by decide, by decide⟩,
   output_contract.2.1 declErrOut rfl,
   output_contract.2.2.1 declValOut rfl,
   output_contract.2.2.2.1 declValOut declErrOut rfl,
   output_contract.2.2.2.2.1 declValOut declValOut rfl,
   output_contract.2.2.2.2.2 declValOut declValOut declErrOut []⟩

theorem analyzeResolver_one {d : ResolverDeclaration} {v0 : ParamDeclaration}
    (hout : d.outputParams = [v0]) (herr : isErrorParam v0 = false) :
    analyzeResolver d =
      .ok { typeName := v0.typeName, typePackage := v0.typePackage, resolver := d,
            returnsError := false, returnsPointer := v0.pointerDepth } := by
  unfold analyzeResolver
  simp only [hout]
  rw [if_neg (by simp [herr])]

theorem analyzeResolver_two {d : ResolverDeclaration} {v0 v1 : ParamDeclaration}
    (hout : d.outputParams = [v0, v1]) (herr : isErrorParam v1 = true) :
    analyzeResolver d =
      .ok { typeName := v0.typeName, typePackage := v0.typePackage, resolver := d,
            returnsError := true, returnsPointer := v0.pointerDepth } := by
  unfold analyzeResolver
  simp only [hout]
  rw [if_neg (by simp [herr])]

/-- Claim C8: catalog building succeeds exactly for one non-error output
or two outputs ending in the error type; the produced entry records the
first output's type name, package and pointer depth, with error
propagation iff there are two outputs; failures surface through
`analyzeResolvers` naming the offending resolver. -/
theorem resolver_catalog_contract :
    (∀ (d : ResolverDeclaration) (v0 : ParamDeclaration),
        d.outputParams = [v0] → isErrorParam v0 = false →
        analyzeResolver d =
          .ok { typeName := v0.typeName, typePackage := v0.typePackage, resolver := d,
                returnsError := false, returnsPointer := v0.pointerDepth }) ∧
    (∀ (d : ResolverDeclaration) (v0 v1 : ParamDeclaration),
        d.outputParams = [v0, v1] → isErrorParam v1 = true →
        analyzeResolver d =
          .ok { typeName := v0.typeName, typePackage := v0.typePackage, resolver := d,
                returnsError := true, returnsPointer := v0.pointerDepth }) ∧
    (∀ d : ResolverDeclaration,
        (∃ rt, analyzeResolver d = .ok rt) ↔
          ((∃ v0, d.outputParams = [v0] ∧ isErrorParam v0 = false) ∨
           (∃ v0 v1, d.outputParams = [v0, v1] ∧ isErrorParam v1 = true))) ∧
    (∀ (d : ResolverDeclaration) (rest : List ResolverDeclaration) (e : String),
        analyzeResolver d = .error e →
        analyzeResolvers (d :: rest) =
          .error ("analyzing resolver " ++ d.name ++ ": " ++ e)) := by
  refine ⟨fun d v0 hout herr => analyzeResolver_one hout herr,
          fun d v0 v1 hout herr => analyzeResolver_two hout herr, ?_, ?_⟩
  · intro d
    constructor
    · rintro ⟨rt, hrt⟩
      unfold analyzeResolver at hrt
      cases hout : d.outputParams with
      | nil =>
        simp only [hout] at hrt
        exact absurd hrt (by simp)
      | cons v0 tl =>
        cases tl with
        | nil =>
          simp only [hout] at hrt
          by_cases herr : isErrorParam v0
          · rw [if_pos herr] at hrt
            exact absurd hrt (by simp)
          · exact Or.inl ⟨v0, rfl, by simpa using herr⟩
        | cons v1 tl2 =>
          cases tl2 with
          | nil =>
            simp only [hout] at hrt
            by_cases herr : isErrorParam v1
            · exact Or.inr ⟨v0, v1, rfl, herr⟩
            · rw [if_pos (by simp [herr])] at hrt
              exact absurd hrt (by simp)
          | cons v2 tl3 =>
            simp only [hout] at hrt
            exact absurd hrt (by simp)
    · rintro (⟨v0, hout, herr⟩ | ⟨v0, v1, hout, herr⟩)
      · exact ⟨_, analyzeResolver_one hout herr⟩
      · exact ⟨_, analyzeResolver_two hout herr⟩
  · intro d rest e he
    unfold analyzeResolvers
    simp only [he]

/-- Witness for C8: a valid one-output resolver, the no-output resolver
failing by name, and the shape characterization refuting its success. -/
theorem resolver_catalog_contract_witness :
    analyzeResolver resolverUser = .ok resolvableUser ∧
    analyzeResolvers [resolverBad] =
      .error "analyzing resolver Bad: a resolver can only return 1 or 2 values: a value or a value and an error" ∧
    ¬ ∃ rt, analyzeResolver resolverBad = .ok rt :=
  ⟨resolver_catalog_contract.1 resolverUser _ rfl rfl,
   resolver_catalog_contract.2.2.2 resolverBad [] _ rfl,
   fun hex => by
     rcases (resolver_catalog_contract.2.2.1 resolverBad).mp hex with
       ⟨v0, h0, -⟩ | ⟨v0, v1, h0, -⟩ <;> exact absurd h0 (by simp [resolverBad])⟩

/-- Claim C5, evaluated at the decisive inputs: the scan is bottom-up and
stops at the first line without a `:` with keys lowercased (first
conjunct), but on duplicate keys the map assignment overwrites, so the
value of the topmost scanned duplicate — the FIRST physical line — is
kept: for "path: a\npath: b" the code ends with "a", whereas the claim
and the `Get` documentation ("only the first occurance is saved", i.e.
the last physical line under the bottom-up scan) require "b". -/
theorem annotations_scan_eval :
    parseAnnotations "intro\nPath: /x\nMethod: POST" = [("method", "POST"), ("path", "/x")] ∧
    parseAnnotations "path: a\npath: b" = [("path", "a")] ∧
    annotationsGet (parseAnnotations "path: a\npath: b") "path" = "a" ∧
    annotationsGet (parseAnnotations "path: a\npath: b") "path" ≠ "b" :=
  ⟨rfl, rfl, rfl, by decide⟩

/-! ## The resolver manifest (claim C6) -/

theorem collectResolverParam_eq (acc : List String × List Resolver) (p : InputParam) :
    collectResolverParam acc p =
      if p.paramKind = ParamKind.resolve then addName acc p.resolver else acc := rfl

theorem foldl_collect_params (ps : List InputParam) (acc : List String × List Resolver) :
    ps.foldl collectResolverParam acc =
      ((ps.filter (fun p => decide (p.paramKind = ParamKind.resolve))).map
        (fun p => p.resolver)).foldl addName acc := by
  induction ps generalizing acc with
  | nil => rfl
  | cons p rest ih =>
    rw [List.foldl_cons, collectResolverParam_eq, List.filter_cons]
    by_cases hk : p.paramKind = ParamKind.resolve
    · rw [if_pos hk,
        if_pos (show decide (p.paramKind = ParamKind.resolve) = true by simp [hk])]
      rw [List.map_cons, List.foldl_cons]
      exact ih (addName acc p.resolver)
    · rw [if_neg hk,
        if_neg (show ¬decide (p.paramKind = ParamKind.resolve) = true by simp [hk])]
      exact ih acc

theorem foldl_collect_endpoints (es : List Endpoint) (acc : List String × List Resolver) :
    es.foldl (fun acc2 e => e.inputParams.foldl collectResolverParam acc2) acc =
      ((es.flatMap (fun e => e.inputParams.filter
        (fun p => decide (p.paramKind = ParamKind.resolve)))).map
          (fun p => p.resolver)).foldl addName acc := by
  induction es generalizing acc with
  | nil => rfl
  | cons e rest ih =>
    rw [List.foldl_cons, foldl_collect_params, List.flatMap_cons, List.map_append,
      List.foldl_append]
    exact ih _

theorem foldl_collect_services (ss : List Service) (acc : List String × List Resolver) :
    ss.foldl (fun acc1 s => s.endpoints.foldl
        (fun acc2 e => e.inputParams.foldl collectResolverParam acc2) acc1) acc =
      (resolveNames ss).foldl addName acc := by
  induction ss generalizing acc with
  | nil => rfl
  | cons s rest ih =>
    rw [List.foldl_cons, foldl_collect_endpoints]
    rw [show resolveNames (s :: rest) =
      ((s.endpoints.flatMap (fun e => e.inputParams.filter
        (fun p => decide (p.paramKind = ParamKind.resolve)))).map (fun p => p.resolver)) ++
        resolveNames rest by
      simp [resolveNames, resolveSteps, List.flatMap_cons, List.map_append]]
    rw [List.foldl_append]
    exact ih _

theorem foldl_addName_spec :
    ∀ (names seen : List String) (out : List Resolver),
      (names.foldl addName (seen, out)).2 =
        out ++ (dedupFirstOccur seen names).map Resolver.mk := by
  intro names
  induction names with
  | nil => intro seen out; simp [dedupFirstOccur]
  | cons n rest ih =>
    intro seen out
    rw [List.foldl_cons]
    by_cases hn : n ∈ seen
    · rw [show addName (seen, out) n = (seen, out) by simp [addName, hn]]
      rw [ih seen out]
      simp [dedupFirstOccur, hn]
    · rw [show addName (seen, out) n = (n :: seen, out ++ [Resolver.mk n]) by
        simp [addName, hn]]
      rw [ih (n :: seen) (out ++ [Resolver.mk n])]
      simp [dedupFirstOccur, hn]

/-- `findUsedResolvers` computes the first-encounter deduplication of the
resolver names recorded on resolve-kind steps. -/
theorem findUsedResolvers_eq (services : List Service) :
    findUsedResolvers services =
      (dedupFirstOccur [] (resolveNames services)).map Resolver.mk := by
  unfold findUsedResolvers
  rw [foldl_collect_services]
  have := foldl_addName_spec (resolveNames services) [] []
  simpa using this

/-- Claim C6 (counterexample): a resolver named `ProvideUser` producing
type `app.User`; the analyzed collection's manifest records the resolver
name `ProvideUser`, not the referenced resolve step's type identity
`(User, app)` that the claim requires. -/
theorem manifest_claim_counterexample :
    AnalyzePackage 2 sourceUser = .ok collectionUser ∧
    collectionUser.resolvers = [{ typeName := "ProvideUser" }] ∧
    usedResolverIdentitiesSpec collectionUser.services = [("User", "app")] ∧
    ¬ manifestMatchesSpec collectionUser :=
  ⟨rfl, rfl, rfl, by decide⟩

/-- Claim C6 (amended): the collection's manifest is the deduplicated
list of the resolver function names recorded on resolve-kind steps of the
endpoints' step lists, in first-encounter order across services,
endpoints and steps, each entry storing the resolver name in its
`TypeName` field — not the steps' (type name, type package) identities. -/
theorem manifest_is_dedup_resolver_names (fuel : Nat) (source : SourcePackage)
    (col : ServiceCollection) (h : AnalyzePackage fuel source = .ok col) :
    col.resolvers = (dedupFirstOccur [] (resolveNames col.services)).map Resolver.mk := by
  unfold AnalyzePackage at h
  cases h1 : analyzeResolvers source.resolvers with
  | error e => simp only [h1] at h; exact absurd h (by simp)
  | ok rts =>
    simp only [h1] at h
    cases h2 : analyzeServices fuel rts source.services with
    | error e => simp only [h2] at h; exact absurd h (by simp)
    | ok ss =>
      simp only [h2, Except.ok.injEq] at h
      rw [← h]
      exact findUsedResolvers_eq ss

/-- Witness for the amended C6 theorem on the concrete package. -/
theorem manifest_is_dedup_resolver_names_witness :
    AnalyzePackage 2 sourceUser = .ok collectionUser ∧
    collectionUser.resolvers =
      (dedupFirstOccur [] (resolveNames collectionUser.services)).map Resolver.mk :=
  ⟨rfl, manifest_is_dedup_resolver_names 2 sourceUser collectionUser rfl⟩
